import Mathlib

/-!
Shallow embedding of the validation core of `src/src-tauri/src/lib.rs`
(the Checker repository): the DDL column extractor, the emptiness scanner
and the numeric-conformance scanner, together with the error taxonomy.

JSON values are embedded at the level of the parsed tree (`serde_json::Value`);
the text-to-tree parsers of the `serde_json` and `sqlparser` crates are
external dependencies and enter the model as `Except`-valued parse results.
Parsed objects are ordered field lists: the spec requires the JSON object
representation to preserve insertion order (the `preserve_order` feature of
`serde_json`, selected outside `src/`).
-/

/-- A parsed JSON value, mirroring `serde_json::Value`.  A number carries its
canonical textual rendering, since the scanners only ever test `is_number()`
and render values to text, never compute with the numeric magnitude. -/
inductive JValue where
  | null
  | bool (b : Bool)
  | num (rendering : String)
  | str (s : String)
  | arr (xs : List JValue)
  | obj (fields : List (String × JValue))
deriving Repr

/-- Mirrors `Value::is_null()`. -/
def JValue.is_null : JValue → Bool
  | .null => true
  | _ => false

/-- Mirrors `Value::is_string()`. -/
def JValue.is_string : JValue → Bool
  | .str _ => true
  | _ => false

/-- Mirrors `Value::is_number()`. -/
def JValue.is_number : JValue → Bool
  | .num _ => true
  | _ => false

/-- Mirrors `Value::as_str()`. -/
def JValue.as_str : JValue → Option String
  | .str s => some s
  | _ => none

/-- One hexadecimal digit, lower case. -/
def hexDigit (n : Nat) : Char :=
  if n < 10 then Char.ofNat (48 + n) else Char.ofNat (87 + n)

/-- Four-digit hexadecimal rendering used by JSON control-character escapes. -/
def hex4 (n : Nat) : String :=
  String.mk [hexDigit (n / 4096 % 16), hexDigit (n / 256 % 16),
             hexDigit (n / 16 % 16), hexDigit (n % 16)]

/-- The escape of one character inside a JSON string literal, as `serde_json`
emits it. -/
def escapeChar (c : Char) : String :=
  if c = '"' then "\\\""
  else if c = '\\' then "\\\\"
  else if c = Char.ofNat 8 then "\\b"
  else if c = Char.ofNat 12 then "\\f"
  else if c = '\n' then "\\n"
  else if c = '\r' then "\\r"
  else if c = '\t' then "\\t"
  else if c.toNat < 32 then "\\u" ++ hex4 c.toNat
  else String.singleton c

/-- A JSON string literal with quotes and escapes, as `serde_json` emits it. -/
def renderJString (s : String) : String :=
  "\"" ++ String.join (s.toList.map escapeChar) ++ "\""

mutual

/-- Mirrors `Value::to_string()`: the compact textual JSON rendering. -/
def JValue.render : JValue → String
  | .null => "null"
  | .bool b => if b then "true" else "false"
  | .num rendering => rendering
  | .str s => renderJString s
  | .arr xs => "[" ++ renderItems xs ++ "]"
  | .obj fs => "\x7b" ++ renderFields fs ++ "\x7d"

/-- Comma-separated rendering of array items. -/
def renderItems : List JValue → String
  | [] => ""
  | [v] => JValue.render v
  | v :: rest => JValue.render v ++ "," ++ renderItems rest

/-- Comma-separated rendering of object fields. -/
def renderFields : List (String × JValue) → String
  | [] => ""
  | [(k, v)] => renderJString k ++ ":" ++ JValue.render v
  | (k, v) :: rest => renderJString k ++ ":" ++ JValue.render v ++ "," ++ renderFields rest

end

/-- The result element of `find_empty_values`. -/
structure EmptyValueResult where
  index : Nat
  key : String
deriving Repr, DecidableEq

/-- The result element of `find_invalid_numeric_values`. -/
structure InvalidNumericResult where
  index : Nat
  key : String
  value : String
deriving Repr, DecidableEq

/-- The error taxonomy of the source (`CommandError`); every variant carries
the message it serializes to at the boundary. -/
inductive CommandError where
  | io (msg : String)
  | json (msg : String)
  | sql (msg : String)
  | generic (msg : String)
deriving Repr, DecidableEq

/-- A column definition of a parsed `CREATE TABLE` statement: the declared
name (`col.name.value`, exact case) and the textual rendering of the declared
type (`col.data_type.to_string()`). -/
structure ColumnDef where
  name : String
  dataType : String
deriving Repr, DecidableEq

/-- A parsed SQL statement as far as the source inspects it: a
`Statement::CreateTable` with its column list, or any other statement kind. -/
inductive SqlStatement where
  | createTable (columns : List ColumnDef)
  | other
deriving Repr, DecidableEq

/-- Drops a leading run of decimal digits. -/
def dropDigits : List Char → List Char
  | c :: t => if c.isDigit then dropDigits t else c :: t
  | [] => []

/-- Accepts an optional exponent part followed by end of input:
`Exp ::= 'e' Sign? Digit+` (input already lower-cased). -/
def expOk : List Char → Bool
  | [] => true
  | 'e' :: t =>
    let t2 := match t with
      | '+' :: u => u
      | '-' :: u => u
      | u => u
    match t2 with
    | c :: u => c.isDigit && (dropDigits u).isEmpty
    | [] => false
  | _ => false

/-- Accepts the `Number` production of Rust's `f64` `FromStr` grammar:
`Number ::= Digit+ '.'? Digit* Exp? | '.' Digit+ Exp?` (lower-cased input). -/
def numberOk : List Char → Bool
  | '.' :: t =>
    match t with
    | c :: u => c.isDigit && expOk (dropDigits u)
    | [] => false
  | c :: t =>
    c.isDigit &&
      (match dropDigits t with
       | '.' :: u => expOk (dropDigits u)
       | r => expOk r)
  | [] => false

/-- ASCII lower-casing, as Rust's `to_lowercase` acts on the ASCII strings
that occur here (SQL type renderings and the `f64` keywords). -/
def strToLower (s : String) : String :=
  String.mk (s.toList.map Char.toLower)

/-- Models `str::parse::<f64>().is_ok()`: the grammar of Rust's `f64`
`FromStr` implementation, `Float ::= Sign? ('inf' | 'infinity' | 'nan' |
Number)`, matched case-insensitively with no whitespace trimming.  Parsing
never fails on a grammar match (overflow saturates to infinity), so
acceptance is exactly grammar membership. -/
def f64FromStrOk (s : String) : Bool :=
  let cs := (strToLower s).toList
  let body := match cs with
    | '+' :: t => t
    | '-' :: t => t
    | t => t
  body == "inf".toList || body == "infinity".toList || body == "nan".toList ||
    numberOk body

/-- Substring membership on character lists (anywhere in the list). -/
def listContainsSub (pat : List Char) : List Char → Bool
  | [] => pat.isEmpty
  | c :: t => pat.isPrefixOf (c :: t) || listContainsSub pat t

/-- Mirrors Rust's `str::contains(pat)` for string patterns. -/
def strContains (s pat : String) : Bool :=
  listContainsSub pat.toList s.toList

/-- The numeric-type heuristic of `find_invalid_numeric_values`: the
lower-cased rendering of the declared type contains one of the five
substrings. -/
def isNumericType (dataType : String) : Bool :=
  let s := strToLower dataType
  strContains s "int" || strContains s "numeric" || strContains s "decimal" ||
    strContains s "float" || strContains s "double"

/-- The numeric column set built by the `for col in columns` loop: every
declared name whose type matches the heuristic is inserted into the
`HashSet` (insertion only, never removal); membership in this list is
membership in the set. -/
def numericColumnsOf (columns : List ColumnDef) : List String :=
  columns.filterMap fun c => if isNumericType c.dataType then some c.name else none

/-- The emptiness test of `find_empty_values`:
`value.is_null() || (value.is_string() && value.as_str().unwrap().is_empty())`. -/
def emptyCheck (v : JValue) : Bool :=
  v.is_null || (v.is_string && ((v.as_str.getD "") == ""))

/-- The inner field loop of `find_empty_values` over one parsed object. -/
def scanEmptyObj (i : Nat) (fields : List (String × JValue)) : List EmptyValueResult :=
  fields.filterMap fun kv => if emptyCheck kv.2 then some ⟨i, kv.1⟩ else none

/-- One array element of `find_empty_values`: objects are scanned, any other
element kind is skipped. -/
def emptyRecord (i : Nat) (o : JValue) : List EmptyValueResult :=
  match o with
  | .obj fs => scanEmptyObj i fs
  | _ => []

/-- The `for (i, obj) in arr.iter().enumerate()` loop shared by both
scanners: per-record findings concatenated in array order. -/
def scanWith (f : Nat → JValue → List α) : Nat → List JValue → List α
  | _, [] => []
  | i, o :: rest => f i o ++ scanWith f (i + 1) rest

/-- `find_empty_values`, over the JSON parse result (`serde_json::from_str`
outcome): a parse error propagates as `CommandError::Json`; a non-array top
level yields the empty finding list; an array is scanned record by record. -/
def find_empty_values (jsonResult : Except String JValue) :
    Except CommandError (List EmptyValueResult) :=
  match jsonResult with
  | .error e => .error (CommandError.json e)
  | .ok v =>
    match v with
    | .arr xs => .ok (scanWith emptyRecord 0 xs)
    | _ => .ok []

/-- The per-field decision of `find_invalid_numeric_values`: keys outside the
numeric column set are ignored; JSON numbers pass; strings pass exactly when
they parse as `f64`, failing strings are reported verbatim; every other value
kind is reported with its textual JSON rendering. -/
def numericCheck (numericCols : List String) (i : Nat) (k : String) (v : JValue) :
    Option InvalidNumericResult :=
  if numericCols.contains k then
    if v.is_number then none
    else
      match v.as_str with
      | some s => if f64FromStrOk s then none else some ⟨i, k, s⟩
      | none => some ⟨i, k, v.render⟩
  else none

/-- The inner field loop of `find_invalid_numeric_values` over one object. -/
def scanNumericObj (numericCols : List String) (i : Nat)
    (fields : List (String × JValue)) : List InvalidNumericResult :=
  fields.filterMap fun kv => numericCheck numericCols i kv.1 kv.2

/-- One array element of `find_invalid_numeric_values`: objects are scanned,
any other element kind is skipped. -/
def numericRecord (numericCols : List String) (i : Nat) (o : JValue) :
    List InvalidNumericResult :=
  match o with
  | .obj fs => scanNumericObj numericCols i fs
  | _ => []

/-- `find_invalid_numeric_values`, over the SQL parse result
(`Parser::parse_sql` outcome) and the JSON parse result.  A SQL parse error
becomes `CommandError::Sql`; otherwise only `ast.get(0)` is inspected: unless
it is a `CreateTable` statement the function fails with the fixed `Sql`
message before the JSON result is ever consulted.  The JSON side then behaves
as in `find_empty_values`. -/
def find_invalid_numeric_values (sqlResult : Except String (List SqlStatement))
    (jsonResult : Except String JValue) :
    Except CommandError (List InvalidNumericResult) :=
  match sqlResult with
  | .error e => .error (CommandError.sql e)
  | .ok ast =>
    match ast.head? with
    | some (SqlStatement.createTable columns) =>
      let numericCols := numericColumnsOf columns
      match jsonResult with
      | .error e => .error (CommandError.json e)
      | .ok v =>
        match v with
        | .arr xs => .ok (scanWith (numericRecord numericCols) 0 xs)
        | _ => .ok []
    | _ => .error (CommandError.sql "Could not parse a CREATE TABLE statement.")

/-- Modelled from the spec: §3's claimed duplicate-name rule for the numeric
column set, "column names within one schema are unique (last declaration wins
if duplicated)" — a name is numeric exactly when the last declaration of that
name has a numeric-like type.  The source's `HashSet` loop is compared
against this. -/
def lastWinsNumericColumns (columns : List ColumnDef) : List String :=
  ((columns.map ColumnDef.name).dedup).filter fun n =>
    match columns.reverse.find? (fun c => c.name == n) with
    | some c => isNumericType c.dataType
    | none => false

/-! ### Helper lemmas -/

theorem emptyCheck_eq_true_iff (v : JValue) :
    emptyCheck v = true ↔ v = JValue.null ∨ v = JValue.str "" := by
  cases v <;>
    simp [emptyCheck, JValue.is_null, JValue.is_string, JValue.as_str]

theorem mem_scanWith {α : Type} (f : Nat → JValue → List α) (r : α) :
    ∀ (xs : List JValue) (j : Nat),
      r ∈ scanWith f j xs ↔ ∃ d o, xs.get? d = some o ∧ r ∈ f (j + d) o := by
  intro xs
  induction xs with
  | nil =>
    intro j
    simp [scanWith]
  | cons o rest ih =>
    intro j
    simp only [scanWith, List.mem_append]
    constructor
    · intro h
      rcases h with h | h
      · exact ⟨0, o, rfl, by simpa using h⟩
      · rcases (ih (j + 1)).mp h with ⟨d, o', hd, hr⟩
        refine ⟨d + 1, o', by simpa using hd, ?_⟩
        have he : j + (d + 1) = j + 1 + d := by omega
        rw [he]
        exact hr
    · rintro ⟨d, o', hd, hr⟩
      cases d with
      | zero =>
        left
        have ho : o' = o := by simpa using hd.symm
        subst ho
        simpa using hr
      | succ d =>
        right
        refine (ih (j + 1)).mpr ⟨d, o', by simpa using hd, ?_⟩
        have he : j + 1 + d = j + (d + 1) := by omega
        rw [he]
        exact hr

theorem scanWith_le_index {α : Type} (f : Nat → JValue → List α) (idx : α → Nat)
    (hidx : ∀ i o r, r ∈ f i o → idx r = i)
    (xs : List JValue) (j : Nat) (r : α) (h : r ∈ scanWith f j xs) : j ≤ idx r := by
  rcases (mem_scanWith f r xs j).mp h with ⟨d, o, _, hr⟩
  rw [hidx _ _ _ hr]
  omega

theorem sorted_map_const {α : Type} (idx : α → Nat) (j : Nat) :
    ∀ l : List α, (∀ r ∈ l, idx r = j) → List.Sorted (· ≤ ·) (l.map idx) := by
  intro l
  induction l with
  | nil => intro _; simp
  | cons a t ih =>
    intro h
    simp only [List.map_cons, List.sorted_cons]
    refine ⟨?_, ih fun r hr => h r (by simp [hr])⟩
    intro b hb
    rcases List.mem_map.mp hb with ⟨x, hx, rfl⟩
    rw [h a (by simp), h x (by simp [hx])]

theorem scanWith_map_index_sorted {α : Type} (f : Nat → JValue → List α) (idx : α → Nat)
    (hidx : ∀ i o r, r ∈ f i o → idx r = i) :
    ∀ (xs : List JValue) (j : Nat), List.Sorted (· ≤ ·) ((scanWith f j xs).map idx) := by
  intro xs
  induction xs with
  | nil => intro j; simp [scanWith]
  | cons o rest ih =>
    intro j
    simp only [scanWith, List.map_append]
    refine List.pairwise_append.mpr
      ⟨sorted_map_const idx j _ fun r hr => hidx _ _ _ hr, ih (j + 1), ?_⟩
    intro a ha b hb
    rcases List.mem_map.mp ha with ⟨x, hx, rfl⟩
    rcases List.mem_map.mp hb with ⟨y, hy, rfl⟩
    rw [hidx _ _ _ hx]
    have hle := scanWith_le_index f idx hidx rest (j + 1) y hy
    omega

theorem scanWith_filter_index {α : Type} (f : Nat → JValue → List α) (idx : α → Nat)
    (hidx : ∀ i o r, r ∈ f i o → idx r = i) :
    ∀ (xs : List JValue) (j i : Nat), j ≤ i →
      (scanWith f j xs).filter (fun r => idx r == i) =
        (match xs.get? (i - j) with
         | some o => f i o
         | none => []) := by
  intro xs
  induction xs with
  | nil => intro j i _; simp [scanWith]
  | cons o rest ih =>
    intro j i hj
    simp only [scanWith, List.filter_append]
    by_cases hji : i = j
    · subst hji
      have h1 : (f i o).filter (fun r => idx r == i) = f i o := by
        apply List.filter_eq_self.mpr
        intro a ha
        simp [hidx _ _ _ ha]
      have h2 : (scanWith f (i + 1) rest).filter (fun r => idx r == i) = [] := by
        apply List.filter_eq_nil_iff.mpr
        intro a ha
        have hle := scanWith_le_index f idx hidx rest (i + 1) a ha
        simp only [beq_iff_eq]
        omega
      rw [h1, h2, List.append_nil]
      simp
    · have h1 : (f j o).filter (fun r => idx r == i) = [] := by
        apply List.filter_eq_nil_iff.mpr
        intro a ha
        rw [hidx _ _ _ ha]
        simp only [beq_iff_eq]
        omega
      rw [h1, List.nil_append, ih (j + 1) i (by omega)]
      have he : i - j = (i - (j + 1)) + 1 := by omega
      rw [he]
      rfl

theorem pairs_nodup_of_keys_nodup {α : Type} (idx : α → Nat) (key : α → String) (j : Nat) :
    ∀ l : List α, (∀ r ∈ l, idx r = j) → (l.map key).Nodup →
      (l.map fun r => (idx r, key r)).Nodup := by
  intro l
  induction l with
  | nil => intro _ _; simp
  | cons a t ih =>
    intro hc hk
    simp only [List.map_cons, List.nodup_cons] at hk ⊢
    refine ⟨?_, ih (fun r hr => hc r (by simp [hr])) hk.2⟩
    intro hmem
    rcases List.mem_map.mp hmem with ⟨x, hx, hpair⟩
    have hkey : key x = key a := congrArg Prod.snd hpair
    exact hk.1 (List.mem_map.mpr ⟨x, hx, hkey⟩)

theorem scanWith_pairs_nodup {α : Type} (f : Nat → JValue → List α)
    (idx : α → Nat) (key : α → String)
    (hidx : ∀ i o r, r ∈ f i o → idx r = i) :
    ∀ (xs : List JValue) (j : Nat),
      (∀ i o, o ∈ xs → ((f i o).map key).Nodup) →
      ((scanWith f j xs).map fun r => (idx r, key r)).Nodup := by
  intro xs
  induction xs with
  | nil => intro j _; simp [scanWith]
  | cons o rest ih =>
    intro j h
    simp only [scanWith, List.map_append]
    apply List.Nodup.append
    · exact pairs_nodup_of_keys_nodup idx key j _ (fun r hr => hidx _ _ _ hr)
        (h j o (by simp))
    · exact ih (j + 1) fun i o' ho' => h i o' (by simp [ho'])
    · intro p hp hp'
      rcases List.mem_map.mp hp with ⟨x, hx, rfl⟩
      rcases List.mem_map.mp hp' with ⟨y, hy, hpair⟩
      have h1 : idx x = j := hidx _ _ _ hx
      have h2 : j + 1 ≤ idx y := scanWith_le_index f idx hidx rest (j + 1) y hy
      have h3 : idx y = idx x := by
        have hc := congrArg Prod.fst hpair
        simpa using hc
      omega

theorem mem_scanEmptyObj (i : Nat) (fields : List (String × JValue))
    (r : EmptyValueResult) :
    r ∈ scanEmptyObj i fields ↔
      r.index = i ∧ ∃ v, (r.key, v) ∈ fields ∧ emptyCheck v = true := by
  simp only [scanEmptyObj, List.mem_filterMap]
  constructor
  · rintro ⟨⟨k, v⟩, hkv, h⟩
    split at h
    · rename_i hc
      injection h with h'
      subst h'
      exact ⟨rfl, v, hkv, hc⟩
    · cases h
  · rintro ⟨hi, v, hv, hc⟩
    refine ⟨(r.key, v), hv, ?_⟩
    rw [if_pos hc]
    cases r
    simp_all

theorem scanEmptyObj_keys (i : Nat) (fields : List (String × JValue)) :
    (scanEmptyObj i fields).map EmptyValueResult.key =
      (fields.filter fun kv => emptyCheck kv.2).map Prod.fst := by
  induction fields with
  | nil => rfl
  | cons kv t ih =>
    by_cases hc : emptyCheck kv.2 = true
    · simp only [scanEmptyObj, List.filterMap_cons, hc, if_true, List.filter_cons,
        List.map_cons] at *
      exact congrArg (kv.1 :: ·) ih
    · simp only [scanEmptyObj, List.filterMap_cons, hc, if_false, List.filter_cons,
        Bool.false_eq_true] at *
      exact ih

theorem emptyRecord_index (i : Nat) (o : JValue) (r : EmptyValueResult)
    (h : r ∈ emptyRecord i o) : r.index = i := by
  cases o <;> simp [emptyRecord] at h
  exact ((mem_scanEmptyObj _ _ _).mp h).1


theorem numericCheck_eq_some_iff (numericCols : List String) (i : Nat) (k : String)
    (v : JValue) (r : InvalidNumericResult) :
    numericCheck numericCols i k v = some r ↔
      numericCols.contains k = true ∧ r.index = i ∧ r.key = k ∧
        ((∃ s, v = JValue.str s ∧ f64FromStrOk s = false ∧ r.value = s) ∨
         (v.is_number = false ∧ v.as_str = none ∧ r.value = v.render)) := by
  obtain ⟨ri, rk, rv⟩ := r
  unfold numericCheck
  by_cases hk : numericCols.contains k = true
  · rw [if_pos hk]
    by_cases hn : v.is_number = true
    · rw [if_pos hn]
      obtain ⟨rendering, rfl⟩ : ∃ x, v = JValue.num x := by
        cases v <;> simp_all [JValue.is_number]
      simp [hk, JValue.is_number, JValue.as_str]
    · rw [if_neg hn]
      cases hv : v.as_str with
      | some s =>
        have hveq : v = JValue.str s := by
          cases v <;> simp_all [JValue.as_str]
        subst hveq
        simp only [JValue.as_str]
        by_cases hp : f64FromStrOk s = true
        · rw [if_pos hp]
          simp [hp, JValue.is_number, JValue.as_str]
        · simp only [Bool.not_eq_true] at hp
          rw [hp, if_neg Bool.false_ne_true]
          constructor
          · intro h
            injection h with h'
            injection h' with e1 e2 e3
            subst e1; subst e2; subst e3
            exact ⟨hk, rfl, rfl, Or.inl ⟨s, rfl, hp, rfl⟩⟩
          · rintro ⟨-, e1, e2, h | h⟩
            · rcases h with ⟨s', hs', -, hval⟩
              injection hs' with he
              subst he; subst e1; subst e2; subst hval
              rfl
            · rcases h with ⟨-, hnone, -⟩
              exact absurd hnone (by simp [JValue.as_str])
      | none =>
        change (some (⟨i, k, v.render⟩ : InvalidNumericResult) = some ⟨ri, rk, rv⟩) ↔ _
        constructor
        · intro h
          injection h with h'
          injection h' with e1 e2 e3
          subst e1; subst e2; subst e3
          exact ⟨hk, rfl, rfl, Or.inr ⟨by simpa using hn, rfl, rfl⟩⟩
        · rintro ⟨-, e1, e2, h | h⟩
          · rcases h with ⟨s', rfl, -, -⟩
            simp [JValue.as_str] at hv
          · rcases h with ⟨-, -, hval⟩
            subst e1; subst e2; subst hval
            rfl
  · rw [if_neg hk]
    have hk' : ¬ k ∈ numericCols := by
      intro hm
      exact hk (List.elem_iff.mpr hm)
    simp [hk']

theorem numericCheck_key_index (numericCols : List String) (i : Nat) (k : String)
    (v : JValue) (r : InvalidNumericResult) (h : numericCheck numericCols i k v = some r) :
    r.key = k ∧ r.index = i := by
  rcases (numericCheck_eq_some_iff numericCols i k v r).mp h with ⟨-, hi, hkey, -⟩
  exact ⟨hkey, hi⟩

theorem mem_scanNumericObj (numericCols : List String) (i : Nat)
    (fields : List (String × JValue)) (r : InvalidNumericResult) :
    r ∈ scanNumericObj numericCols i fields ↔
      ∃ v, (r.key, v) ∈ fields ∧ numericCheck numericCols i r.key v = some r := by
  simp only [scanNumericObj, List.mem_filterMap]
  constructor
  · rintro ⟨⟨k, v⟩, hkv, h⟩
    have hkk : r.key = k := (numericCheck_key_index _ _ _ _ _ h).1
    subst hkk
    exact ⟨v, hkv, h⟩
  · rintro ⟨v, hkv, h⟩
    exact ⟨(r.key, v), hkv, h⟩

theorem scanNumericObj_keys (numericCols : List String) (i : Nat)
    (fields : List (String × JValue)) :
    (scanNumericObj numericCols i fields).map InvalidNumericResult.key =
      (fields.filter fun kv => (numericCheck numericCols i kv.1 kv.2).isSome).map Prod.fst := by
  induction fields with
  | nil => rfl
  | cons kv t ih =>
    cases hc : numericCheck numericCols i kv.1 kv.2 with
    | some r =>
      have hkk : r.key = kv.1 := (numericCheck_key_index _ _ _ _ _ hc).1
      simp only [scanNumericObj, List.filterMap_cons, hc, List.filter_cons,
        Option.isSome_some, if_true, List.map_cons]
      rw [hkk]
      exact congrArg (kv.1 :: ·) ih
    | none =>
      simp only [scanNumericObj, List.filterMap_cons, hc, List.filter_cons,
        Option.isSome_none, Bool.false_eq_true, if_false]
      exact ih

theorem numericRecord_index (numericCols : List String) (i : Nat) (o : JValue)
    (r : InvalidNumericResult) (h : r ∈ numericRecord numericCols i o) : r.index = i := by
  cases o <;> simp [numericRecord] at h
  rcases (mem_scanNumericObj _ _ _ _).mp h with ⟨v, -, hc⟩
  exact (numericCheck_key_index _ _ _ _ _ hc).2

theorem mem_scanEmpty_iff (xs : List JValue) (i : Nat) (k : String) :
    (⟨i, k⟩ : EmptyValueResult) ∈ scanWith emptyRecord 0 xs ↔
      ∃ fields, xs.get? i = some (JValue.obj fields) ∧
        ∃ v, (k, v) ∈ fields ∧ emptyCheck v = true := by
  rw [mem_scanWith]
  constructor
  · rintro ⟨d, o, hd, hr⟩
    cases o with
    | obj fields =>
      rcases (mem_scanEmptyObj _ _ _).mp hr with ⟨hi, v, hv, hc⟩
      simp only at hi
      have hdi : d = i := by omega
      subst hdi
      exact ⟨fields, hd, v, hv, hc⟩
    | null => simp [emptyRecord] at hr
    | bool b => simp [emptyRecord] at hr
    | num rendering => simp [emptyRecord] at hr
    | str s => simp [emptyRecord] at hr
    | arr ys => simp [emptyRecord] at hr
  · rintro ⟨fields, hd, v, hv, hc⟩
    refine ⟨i, JValue.obj fields, hd, ?_⟩
    have h0 : 0 + i = i := by omega
    rw [h0]
    exact (mem_scanEmptyObj _ _ _).mpr ⟨rfl, v, hv, hc⟩

theorem mem_scanNumeric_iff (numericCols : List String) (xs : List JValue) (i : Nat)
    (k valv : String) :
    (⟨i, k, valv⟩ : InvalidNumericResult) ∈ scanWith (numericRecord numericCols) 0 xs ↔
      ∃ fields, xs.get? i = some (JValue.obj fields) ∧
        ∃ v, (k, v) ∈ fields ∧
          numericCheck numericCols i k v = some ⟨i, k, valv⟩ := by
  rw [mem_scanWith]
  constructor
  · rintro ⟨d, o, hd, hr⟩
    cases o with
    | obj fields =>
      rcases (mem_scanNumericObj _ _ _ _).mp hr with ⟨v, hv, hc⟩
      have hdi : d = i := by
        have := (numericCheck_key_index _ _ _ _ _ hc).2
        simp only at this
        omega
      subst hdi
      exact ⟨fields, hd, v, hv, by simpa using hc⟩
    | null => simp [numericRecord] at hr
    | bool b => simp [numericRecord] at hr
    | num rendering => simp [numericRecord] at hr
    | str s => simp [numericRecord] at hr
    | arr ys => simp [numericRecord] at hr
  · rintro ⟨fields, hd, v, hv, hc⟩
    refine ⟨i, JValue.obj fields, hd, ?_⟩
    have h0 : 0 + i = i := by omega
    rw [h0]
    exact (mem_scanNumericObj _ _ _ _).mpr ⟨v, hv, hc⟩

/-! ### Claim theorems -/

/-- C1: for every JSON array and numeric column set, a finding `(i, k, val)`
is produced exactly when record `i` is an object whose field `k` lies in the
numeric column set and either holds a string that fails `f64` parsing (with
`val` the original string) or holds a non-number non-string value (with `val`
its textual JSON rendering); JSON numbers and keys outside the set are never
reported. -/
theorem C1_numeric_scanner_field_classification (xs : List JValue)
    (numericCols : List String) (columns : List ColumnDef) (i : Nat) (k valv : String) :
    (find_invalid_numeric_values (Except.ok [SqlStatement.createTable columns])
        (Except.ok (JValue.arr xs)) =
      Except.ok (scanWith (numericRecord (numericColumnsOf columns)) 0 xs)) ∧
    ((⟨i, k, valv⟩ : InvalidNumericResult) ∈ scanWith (numericRecord numericCols) 0 xs ↔
      ∃ fields, xs.get? i = some (JValue.obj fields) ∧ numericCols.contains k = true ∧
        ∃ v, (k, v) ∈ fields ∧
          ((∃ s, v = JValue.str s ∧ f64FromStrOk s = false ∧ valv = s) ∨
           (v.is_number = false ∧ v.as_str = none ∧ valv = v.render))) := by
  constructor
  · rfl
  · rw [mem_scanNumeric_iff]
    constructor
    · rintro ⟨fields, hd, v, hv, hc⟩
      rcases (numericCheck_eq_some_iff _ _ _ _ _).mp hc with ⟨hk, -, -, hcase⟩
      exact ⟨fields, hd, hk, v, hv, hcase⟩
    · rintro ⟨fields, hd, hk, v, hv, hcase⟩
      exact ⟨fields, hd, v, hv,
        (numericCheck_eq_some_iff _ _ _ _ _).mpr ⟨hk, rfl, rfl, hcase⟩⟩

/-- C2: the emptiness scanner emits `(i, k)` exactly when record `i` is an
object whose field `k` is JSON `null` or the empty string; an all-whitespace
string is not reported. -/
theorem C2_emptiness_scanner_iff (xs : List JValue) (i : Nat) (k : String) :
    (find_empty_values (Except.ok (JValue.arr xs)) =
      Except.ok (scanWith emptyRecord 0 xs)) ∧
    ((⟨i, k⟩ : EmptyValueResult) ∈ scanWith emptyRecord 0 xs ↔
      ∃ fields, xs.get? i = some (JValue.obj fields) ∧
        ∃ v, (k, v) ∈ fields ∧ (v = JValue.null ∨ v = JValue.str "")) ∧
    scanWith emptyRecord 0 [JValue.obj [("a", JValue.str " ")]] = [] := by
  refine ⟨rfl, ?_, rfl⟩
  rw [mem_scanEmpty_iff]
  constructor
  · rintro ⟨fields, hd, v, hv, hc⟩
    exact ⟨fields, hd, v, hv, (emptyCheck_eq_true_iff v).mp hc⟩
  · rintro ⟨fields, hd, v, hv, hc⟩
    exact ⟨fields, hd, v, hv, (emptyCheck_eq_true_iff v).mpr hc⟩

/-- C3: a declared column name is in the numeric column set exactly when the
lower-cased rendering of its declared type contains one of "int", "numeric",
"decimal", "float", "double"; the stored name keeps its declared case. -/
theorem C3_numeric_column_set_membership (columns : List ColumnDef) (n : String) :
    (n ∈ numericColumnsOf columns ↔
      ∃ c ∈ columns, c.name = n ∧
        (strContains (strToLower c.dataType) "int" ||
         strContains (strToLower c.dataType) "numeric" ||
         strContains (strToLower c.dataType) "decimal" ||
         strContains (strToLower c.dataType) "float" ||
         strContains (strToLower c.dataType) "double") = true) ∧
    numericColumnsOf [⟨"Age", "BIGINT"⟩, ⟨"name", "VARCHAR(10)"⟩] = ["Age"] := by
  constructor
  · simp only [numericColumnsOf, List.mem_filterMap]
    constructor
    · rintro ⟨c, hc, h⟩
      split at h
      · rename_i ht
        injection h with h'
        subst h'
        exact ⟨c, hc, rfl, ht⟩
      · cases h
    · rintro ⟨c, hc, hn, ht⟩
      refine ⟨c, hc, ?_⟩
      have ht' : isNumericType c.dataType = true := ht
      rw [if_pos ht', hn]
  · rfl

/-- C4: only the first parsed statement is consulted: an empty statement list
or a non-CreateTable first statement yields the fixed SQL error for every
JSON input (the JSON result is never consulted), and trailing statements
never change the outcome. -/
theorem C4_first_statement_only (jsonResult jsonResult2 : Except String JValue)
    (s : SqlStatement) (rest rest2 : List SqlStatement) :
    (find_invalid_numeric_values (Except.ok []) jsonResult =
      Except.error (CommandError.sql "Could not parse a CREATE TABLE statement.")) ∧
    ((∀ columns, s ≠ SqlStatement.createTable columns) →
      find_invalid_numeric_values (Except.ok (s :: rest)) jsonResult =
        Except.error (CommandError.sql "Could not parse a CREATE TABLE statement.") ∧
      find_invalid_numeric_values (Except.ok (s :: rest)) jsonResult =
        find_invalid_numeric_values (Except.ok (s :: rest)) jsonResult2) ∧
    (find_invalid_numeric_values (Except.ok (s :: rest)) jsonResult =
      find_invalid_numeric_values (Except.ok (s :: rest2)) jsonResult) := by
  refine ⟨rfl, ?_, ?_⟩
  · intro h
    cases s with
    | createTable columns => exact absurd rfl (h columns)
    | other => exact ⟨rfl, rfl⟩
  · cases s <;> rfl

/-- C4 witness: a `SELECT`-like first statement produces the SQL error on a
concrete input. -/
theorem C4_first_statement_only_witness :
    (∀ columns, SqlStatement.other ≠ SqlStatement.createTable columns) ∧
    find_invalid_numeric_values (Except.ok [SqlStatement.other])
        (Except.ok (JValue.str "unused")) =
      Except.error (CommandError.sql "Could not parse a CREATE TABLE statement.") :=
  ⟨fun _ h => SqlStatement.noConfusion h,
   ((C4_first_statement_only (Except.ok (JValue.str "unused")) (Except.error "e")
      SqlStatement.other [] []).2.1 fun _ h => SqlStatement.noConfusion h).1⟩

/-- C5 counterexample: with `a INT, a TEXT` the code keeps `a` in the numeric
column set (the loop only inserts, never removes), while the claimed
last-declaration-wins rule would exclude it. -/
theorem C5_last_wins_counterexample :
    "a" ∈ numericColumnsOf [⟨"a", "INT"⟩, ⟨"a", "TEXT"⟩] ∧
    ¬ "a" ∈ lastWinsNumericColumns [⟨"a", "INT"⟩, ⟨"a", "TEXT"⟩] := by
  constructor
  · rw [show numericColumnsOf [⟨"a", "INT"⟩, ⟨"a", "TEXT"⟩] = ["a"] from rfl]
    simp
  · rw [show lastWinsNumericColumns [⟨"a", "INT"⟩, ⟨"a", "TEXT"⟩] = [] from rfl]
    simp

/-- C5 amended: any numeric declaration wins — appending a declaration adds
its name to the numeric column set when its type is numeric-like and never
removes a name already present. -/
theorem C5_any_numeric_declaration_wins (columns : List ColumnDef) (c : ColumnDef)
    (n : String) :
    n ∈ numericColumnsOf (columns ++ [c]) ↔
      (n ∈ numericColumnsOf columns ∨ (c.name = n ∧ isNumericType c.dataType = true)) := by
  simp only [numericColumnsOf, List.filterMap_append, List.mem_append]
  constructor
  · rintro (h | h)
    · exact Or.inl h
    · right
      simp only [List.filterMap_cons, List.filterMap_nil] at h
      split at h
      · simp at h
      · rename_i b heq
        simp only [List.mem_singleton] at h
        subst h
        split at heq
        · rename_i ht
          injection heq with he
          exact ⟨he, ht⟩
        · cases heq
  · rintro (h | ⟨hn, ht⟩)
    · exact Or.inl h
    · right
      simp [List.filterMap_cons, ht, hn]

/-- C6: a JSON parse failure makes both scanners return the JSON error, with
no finding list (the numeric scanner being given a parse result whose first
statement is a CREATE TABLE). -/
theorem C6_json_parse_error_no_findings (e : String) (columns : List ColumnDef)
    (rest : List SqlStatement) :
    find_empty_values (Except.error e) = Except.error (CommandError.json e) ∧
    find_invalid_numeric_values (Except.ok (SqlStatement.createTable columns :: rest))
        (Except.error e) = Except.error (CommandError.json e) :=
  ⟨rfl, rfl⟩

/-- C7: a valid-JSON non-array top level makes both scanners succeed with an
empty finding list, and a non-object array element contributes no finding to
either scan. -/
theorem C7_non_array_and_non_object_tolerated (v o : JValue) (columns : List ColumnDef)
    (numericCols : List String) (i : Nat)
    (hv : ∀ xs, v ≠ JValue.arr xs) (ho : ∀ fields, o ≠ JValue.obj fields) :
    find_empty_values (Except.ok v) = Except.ok [] ∧
    find_invalid_numeric_values (Except.ok [SqlStatement.createTable columns])
        (Except.ok v) = Except.ok [] ∧
    emptyRecord i o = [] ∧
    numericRecord numericCols i o = [] := by
  refine ⟨?_, ?_, ?_, ?_⟩
  · cases v with
    | arr xs => exact absurd rfl (hv xs)
    | null => rfl
    | bool b => rfl
    | num rendering => rfl
    | str s => rfl
    | obj fields => rfl
  · cases v with
    | arr xs => exact absurd rfl (hv xs)
    | null => rfl
    | bool b => rfl
    | num rendering => rfl
    | str s => rfl
    | obj fields => rfl
  · cases o with
    | obj fields => exact absurd rfl (ho fields)
    | null => rfl
    | bool b => rfl
    | num rendering => rfl
    | str s => rfl
    | arr xs => rfl
  · cases o with
    | obj fields => exact absurd rfl (ho fields)
    | null => rfl
    | bool b => rfl
    | num rendering => rfl
    | str s => rfl
    | arr xs => rfl

/-- C7 witness: a non-array top level (`null`) and a non-object element
(a string) at concrete inputs. -/
theorem C7_non_array_and_non_object_tolerated_witness :
    (∀ xs, JValue.null ≠ JValue.arr xs) ∧
    (∀ fields, JValue.str "x" ≠ JValue.obj fields) ∧
    find_empty_values (Except.ok JValue.null) = Except.ok [] ∧
    find_invalid_numeric_values (Except.ok [SqlStatement.createTable [⟨"a", "INT"⟩]])
        (Except.ok JValue.null) = Except.ok [] ∧
    emptyRecord 0 (JValue.str "x") = [] ∧
    numericRecord ["a"] 0 (JValue.str "x") = [] := by
  have h := C7_non_array_and_non_object_tolerated JValue.null (JValue.str "x")
    [⟨"a", "INT"⟩] ["a"] 0 (fun _ hc => JValue.noConfusion hc)
    (fun _ hc => JValue.noConfusion hc)
  exact ⟨fun _ hc => JValue.noConfusion hc, fun _ hc => JValue.noConfusion hc,
    h.1, h.2.1, h.2.2.1, h.2.2.2⟩

/-- C8: both scanners emit findings with non-decreasing record indices, and
the findings carrying index `i` are exactly the qualifying fields of record
`i` in the field order of the parsed object (the embedding's objects are
insertion-ordered field lists). -/
theorem C8_findings_in_encounter_order (xs : List JValue) (numericCols : List String)
    (i : Nat) :
    List.Sorted (· ≤ ·) ((scanWith emptyRecord 0 xs).map EmptyValueResult.index) ∧
    ((scanWith emptyRecord 0 xs).filter (fun r => r.index == i)).map
        EmptyValueResult.key =
      (match xs.get? i with
       | some (JValue.obj fields) =>
         (fields.filter fun kv => emptyCheck kv.2).map Prod.fst
       | _ => []) ∧
    List.Sorted (· ≤ ·)
      ((scanWith (numericRecord numericCols) 0 xs).map InvalidNumericResult.index) ∧
    ((scanWith (numericRecord numericCols) 0 xs).filter (fun r => r.index == i)).map
        InvalidNumericResult.key =
      (match xs.get? i with
       | some (JValue.obj fields) =>
         (fields.filter fun kv => (numericCheck numericCols i kv.1 kv.2).isSome).map
           Prod.fst
       | _ => []) := by
  have hidxE : ∀ j o r, r ∈ emptyRecord j o → EmptyValueResult.index r = j :=
    fun j o r h => emptyRecord_index j o r h
  have hidxN : ∀ j o r, r ∈ numericRecord numericCols j o →
      InvalidNumericResult.index r = j :=
    fun j o r h => numericRecord_index numericCols j o r h
  refine ⟨scanWith_map_index_sorted _ _ hidxE xs 0, ?_,
    scanWith_map_index_sorted _ _ hidxN xs 0, ?_⟩
  · rw [scanWith_filter_index _ _ hidxE xs 0 i (by omega)]
    simp only [Nat.sub_zero]
    cases hg : xs.get? i with
    | none => rfl
    | some o =>
      cases o with
      | obj fields => exact scanEmptyObj_keys i fields
      | null => rfl
      | bool b => rfl
      | num rendering => rfl
      | str s => rfl
      | arr ys => rfl
  · rw [scanWith_filter_index _ _ hidxN xs 0 i (by omega)]
    simp only [Nat.sub_zero]
    cases hg : xs.get? i with
    | none => rfl
    | some o =>
      cases o with
      | obj fields => exact scanNumericObj_keys numericCols i fields
      | null => rfl
      | bool b => rfl
      | num rendering => rfl
      | str s => rfl
      | arr ys => rfl

/-- C9: in a numeric-designated field a string value produces a finding
exactly when Rust's `f64` parser rejects it; `NaN`, `inf`, `Infinity` and
`1e9` are accepted, while `" 5"` (no trimming) is rejected. -/
theorem C9_string_acceptance_mirrors_f64 (numericCols : List String) (i : Nat)
    (k s : String) (hk : numericCols.contains k = true) :
    (numericCheck numericCols i k (JValue.str s) =
      if f64FromStrOk s then none else some ⟨i, k, s⟩) ∧
    f64FromStrOk "NaN" = true ∧ f64FromStrOk "inf" = true ∧
    f64FromStrOk "Infinity" = true ∧ f64FromStrOk "1e9" = true ∧
    f64FromStrOk " 5" = false := by
  refine ⟨?_, rfl, rfl, rfl, rfl, rfl⟩
  unfold numericCheck
  rw [if_pos hk]
  simp [JValue.is_number, JValue.as_str]

/-- C9 witness: concrete instantiation with `{"a": "x"}` and the numeric set
containing `a`. -/
theorem C9_string_acceptance_mirrors_f64_witness :
    (["a"] : List String).contains "a" = true ∧
    numericCheck ["a"] 0 "a" (JValue.str "x") =
      (if f64FromStrOk "x" then none else some ⟨0, "a", "x"⟩) :=
  ⟨rfl, (C9_string_acceptance_mirrors_f64 ["a"] 0 "a" "x" rfl).1⟩

/-- C10: when each parsed object has pairwise distinct keys (as maps parsed
from JSON do), each `(index, key)` pair occurs at most once in the finding
list of either scanner. -/
theorem C10_findings_pairwise_distinct (xs : List JValue) (numericCols : List String)
    (h : ∀ fields, JValue.obj fields ∈ xs → (fields.map Prod.fst).Nodup) :
    ((scanWith emptyRecord 0 xs).map fun r => (r.index, r.key)).Nodup ∧
    ((scanWith (numericRecord numericCols) 0 xs).map fun r => (r.index, r.key)).Nodup := by
  constructor
  · apply scanWith_pairs_nodup emptyRecord EmptyValueResult.index EmptyValueResult.key
      (fun j o r hr => emptyRecord_index j o r hr) xs 0
    intro i o ho
    cases o with
    | obj fields =>
      rw [show emptyRecord i (JValue.obj fields) = scanEmptyObj i fields from rfl,
        scanEmptyObj_keys]
      exact List.Nodup.sublist ((List.filter_sublist fields).map Prod.fst) (h fields ho)
    | null => simp [emptyRecord]
    | bool b => simp [emptyRecord]
    | num rendering => simp [emptyRecord]
    | str s => simp [emptyRecord]
    | arr ys => simp [emptyRecord]
  · apply scanWith_pairs_nodup (numericRecord numericCols) InvalidNumericResult.index
      InvalidNumericResult.key
      (fun j o r hr => numericRecord_index numericCols j o r hr) xs 0
    intro i o ho
    cases o with
    | obj fields =>
      rw [show numericRecord numericCols i (JValue.obj fields) =
          scanNumericObj numericCols i fields from rfl, scanNumericObj_keys]
      exact List.Nodup.sublist ((List.filter_sublist fields).map Prod.fst) (h fields ho)
    | null => simp [numericRecord]
    | bool b => simp [numericRecord]
    | num rendering => simp [numericRecord]
    | str s => simp [numericRecord]
    | arr ys => simp [numericRecord]

/-- C10 witness: a concrete one-record array with distinct keys. -/
theorem C10_findings_pairwise_distinct_witness :
    (∀ fields, JValue.obj fields ∈ [JValue.obj [("a", JValue.null)]] →
      (fields.map Prod.fst).Nodup) ∧
    ((scanWith emptyRecord 0 [JValue.obj [("a", JValue.null)]]).map
        fun r => (r.index, r.key)).Nodup := by
  have hh : ∀ fields, JValue.obj fields ∈ [JValue.obj [("a", JValue.null)]] →
      (fields.map Prod.fst).Nodup := by
    intro fields hf
    simp only [List.mem_singleton] at hf
    injection hf with he
    subst he
    simp
  exact ⟨hh, (C10_findings_pairwise_distinct [JValue.obj [("a", JValue.null)]] [] hh).1⟩
